import Mathlib

/-!
Shallow embedding of the Stellar admin-checker core
(`src/storage_helper.rs`, `src/runner.rs`, `src/horizon_helper.rs`,
`src/account_type.rs`, `src/error.rs`) together with theorems settling the
spec claims.  Network collaborators (the Soroban RPC client and the Horizon
HTTP index) are modelled by passing their responses as explicit arguments;
Rust `unwrap()` panics are modelled by an explicit `panic` outcome (or by
`Option.none` for pure helpers).  `u8`/`u64` arithmetic is modelled on `Nat`
with explicit `% 2 ^ w` reductions exactly where the Rust code can overflow.
-/

namespace StellarAdmin

/-- Error taxonomy from `src/error.rs` (the variants reachable from the core
logic; CLI/config-only variants are omitted as out of scope). -/
inductive Error where
  | MultipleAdminsFound
  | WrongStorageType
  | MalformedAddress
  | AdminNotFound
  | NotAContract
  | InstanceStorageFailure
  | PersistentStorageFailure
  | HorizonDataFetchFailure
  | HorizonDataParseFailure
deriving DecidableEq, Repr

/-- `AccountType` from `src/account_type.rs`.  The two `Multisig` payloads are
Rust `u8`; they are modelled as `Nat` and reduced `% 256` at the one place the
code casts (`i as u8 + 1`, `total_signers as u8`). -/
inductive AccountType where
  | Contract
  | Multisig (threshold : Nat) (total : Nat)
  | Deactivated
  | HotWallet
  | MPC
deriving DecidableEq, Repr

/-- `ScAddress` from `stellar_xdr`: an account (G-address, carried here as its
text identifier, which is what `AccountId::to_string` produces) or a contract
(hash, opaque here). -/
inductive ScAddress where
  | account (id : String)
  | contract (h : String)
deriving DecidableEq, Repr

mutual
/-- The fragment of `stellar_xdr::ScVal` the core manipulates: vectors
(`ScVal::Vec(Option<ScVec>)`, with the `Option` flattened into two
constructors), symbols, strings, addresses, plus opaque other variants so
storage entries can hold arbitrary values. -/
inductive ScVal where
  | vecNone : ScVal
  | vecSome (elems : ScValList) : ScVal
  | symbol (s : String) : ScVal
  | str (s : String) : ScVal
  | address (a : ScAddress) : ScVal
  | boolV (b : Bool) : ScVal
  | other (tag : Nat) : ScVal
deriving DecidableEq, Repr

/-- Lists of `ScVal` as a mutual inductive (avoids a nested `List` occurrence
so that decidable equality can be derived). -/
inductive ScValList where
  | nil : ScValList
  | cons (hd : ScVal) (tl : ScValList) : ScValList
deriving DecidableEq, Repr
end

/-- `AddressType` from `src/storage_helper.rs`. -/
inductive AddressType where
  | EOA (id : String)
  | Contract
deriving DecidableEq, Repr

/-- `KeyType` from `src/storage_helper.rs`: the three wire-encoding shapes of
an admin storage key. -/
inductive KeyType where
  | EnumVariant
  | Symbol
  | String
deriving DecidableEq, Repr

/-- UTF-8 byte length of a string, as Rust's `str::len` counts it; this is
what `StringM::<N>::from_str` bounds-checks. -/
def byteLen (s : String) : Nat := (s.data.map Char.utf8Size).sum

/-- `ScSymbol` wraps `StringM<32>`: construction fails (and the Rust code
`unwrap`s, i.e. panics) when the key exceeds 32 bytes. -/
def symbolLimit : Nat := 32

/-- `ScString` wraps `StringM<{u32::MAX}>`. -/
def stringLimit : Nat := 4294967295

/-- `format_key` from `src/storage_helper.rs` (together with its helper
`get_enum_variant_key`).  `StringM::from_str(key).unwrap()` panics when the
key exceeds the bound, modelled as `none`. -/
def format_key (key : String) : KeyType → Option ScVal
  | KeyType.EnumVariant =>
      if byteLen key ≤ symbolLimit then
        some (ScVal.vecSome (ScValList.cons (ScVal.symbol key) ScValList.nil))
      else none
  | KeyType.Symbol =>
      if byteLen key ≤ symbolLimit then some (ScVal.symbol key) else none
  | KeyType.String =>
      if byteLen key ≤ stringLimit then some (ScVal.str key) else none

/-- Accumulator loop of `possible_keys`: for each key insert the enum-variant,
string and symbol encodings into the set (Rust `HashSet<ScVal>`, modelled as
`Finset ScVal`); a panic in any `format_key` call aborts the whole run. -/
def possible_keys_aux (acc : Finset ScVal) : List String → Option (Finset ScVal)
  | [] => some acc
  | k :: rest => do
      let a ← format_key k KeyType.EnumVariant
      let b ← format_key k KeyType.String
      let c ← format_key k KeyType.Symbol
      possible_keys_aux (insert c (insert b (insert a acc))) rest

/-- `possible_keys` from `src/storage_helper.rs`. -/
def possible_keys (keys : List String) : Option (Finset ScVal) :=
  possible_keys_aux ∅ keys

/-- `decode_admin_value` from `src/storage_helper.rs` (with `wrap_eoa`
inlined: `wrap_eoa id = AddressType.EOA (toString id)`, and the account is
already carried as its text identifier). -/
def decode_admin_value (val : ScVal) : Except Error AddressType :=
  match val with
  | ScVal.address (ScAddress.account id) => Except.ok (AddressType.EOA id)
  | ScVal.address (ScAddress.contract _) => Except.ok AddressType.Contract
  | _ => Except.error Error.WrongStorageType

/-- `mutate_input` from `src/runner.rs`: ASCII lowercase transform
(`str::to_ascii_lowercase`; Lean's `Char.toLower` is likewise ASCII-only). -/
def toLowerStr (s : String) : String := ⟨s.data.map Char.toLower⟩

/-- ASCII uppercase transform (`str::to_ascii_uppercase`). -/
def toUpperStr (s : String) : String := ⟨s.data.map Char.toUpper⟩

/-- First-letter-capitalised / rest-lowercased transform: the indexed map in
`mutate_input` (`i == 0 → to_ascii_uppercase`, otherwise
`to_ascii_lowercase`). -/
def capitalizeStr (s : String) : String :=
  match s.data with
  | [] => ⟨[]⟩
  | c :: rest => ⟨Char.toUpper c :: rest.map Char.toLower⟩

/-- `mutate_input` from `src/runner.rs`: the three case transforms of the
input key, in source order. -/
def mutate_input (key : String) : List String :=
  [toLowerStr key, toUpperStr key, capitalizeStr key]

/-- The fragment of `stellar_xdr::LedgerEntryData` the core inspects: a
contract-data entry carrying a value, or any other entry kind. -/
inductive LedgerEntryData where
  | contractData (val : ScVal)
  | otherEntry
deriving DecidableEq, Repr

/-- Response of `rpc.get_ledger_entries`: `Except` for the transport result
(error payload opaque), then the `entries: Option<Vec<_>>` field, each entry's
`xdr` field already run through `LedgerEntryData::from_xdr_base64`
(`none` = the base64 payload is malformed, so `from_xdr_base64` fails and the
code's `unwrap()` panics). -/
def PSResponse : Type := Except Unit (Option (List (Option LedgerEntryData)))

/-- Outcome of a storage lookup: a value, a typed error, or a Rust panic
(reached only through the `unwrap()` calls in `persistent_storage_lookup`). -/
inductive PSOutcome where
  | ok (v : ScVal)
  | err (e : Error)
  | panic
deriving DecidableEq, Repr

/-- `Runner::persistent_storage_lookup` from `src/runner.rs`, as a function of
the RPC collaborator's response.  Mirrors the source: transport failure →
`PersistentStorageFailure`; `entries_.entries.unwrap()` (panic on `None`);
`match entries.len()` with `0 → AdminNotFound`, `1 → fall through`,
`_ → MultipleAdminsFound`; then decode entry 0's payload
(`from_xdr_base64(..).unwrap()` panics on malformed payload) and require a
contract-data entry, else `AdminNotFound`. -/
def persistent_storage_lookup (r : PSResponse) : PSOutcome :=
  match r with
  | Except.error _ => PSOutcome.err Error.PersistentStorageFailure
  | Except.ok none => PSOutcome.panic
  | Except.ok (some entries) =>
      match entries with
      | [] => PSOutcome.err Error.AdminNotFound
      | [e] =>
          match e with
          | none => PSOutcome.panic
          | some (LedgerEntryData.contractData v) => PSOutcome.ok v
          | some LedgerEntryData.otherEntry => PSOutcome.err Error.AdminNotFound
      | _ :: _ :: _ => PSOutcome.err Error.MultipleAdminsFound

/-- `ScMapEntry` from `stellar_xdr`: one key/value pair of a contract's
instance storage. -/
structure ScMapEntry where
  key : ScVal
  val : ScVal
deriving DecidableEq, Repr

/-- Response of `rpc.get_contract_instance`: transport result, then the
`instance.storage : Option<ScMap>` field. -/
def InstanceResponse : Type := Except Unit (Option (List ScMapEntry))

/-- `Runner::get_contract_instance` from `src/runner.rs`: errors with
`NotAContract` unless the target is a contract, maps a transport failure to
`InstanceStorageFailure`, and treats an absent storage map as the empty entry
list (`Ok(vec![])`). -/
def get_contract_instance (target : ScAddress) (r : InstanceResponse) :
    Except Error (List ScMapEntry) :=
  match target with
  | ScAddress.account _ => Except.error Error.NotAContract
  | ScAddress.contract _ =>
      match r with
      | Except.error _ => Except.error Error.InstanceStorageFailure
      | Except.ok none => Except.ok []
      | Except.ok (some storage) => Except.ok storage

/-- Outcome of `find_key`: an `AddressType`, a typed error, or a panic
propagated from the persistent-storage lookup. -/
inductive FKOutcome where
  | ok (a : AddressType)
  | err (e : Error)
  | panic
deriving DecidableEq, Repr

/-- Lift the result of `decode_admin_value` into a `find_key` outcome. -/
def liftDecode (v : ScVal) : FKOutcome :=
  match decode_admin_value v with
  | Except.ok a => FKOutcome.ok a
  | Except.error e => FKOutcome.err e

/-- Persistent-storage fallback branch of `find_key`: run the persistent
lookup and decode its value on success. -/
def fallbackResult (p : PSResponse) : FKOutcome :=
  match persistent_storage_lookup p with
  | PSOutcome.ok v => liftDecode v
  | PSOutcome.err e => FKOutcome.err e
  | PSOutcome.panic => FKOutcome.panic

/-- `Runner::find_key` from `src/runner.rs`, as a function of the key set, the
target address and both collaborator responses: an account target is returned
directly as an EOA; otherwise fetch the instance storage, scan it for the
first entry whose key is in the key set, and fall back to the persistent
lookup when no entry matches; the winning value is decoded by
`decode_admin_value`. -/
def find_key (keys : Finset ScVal) (target : ScAddress)
    (inst : InstanceResponse) (p : PSResponse) : FKOutcome :=
  match target with
  | ScAddress.account id => FKOutcome.ok (AddressType.EOA id)
  | ScAddress.contract h =>
      match get_contract_instance (ScAddress.contract h) inst with
      | Except.error e => FKOutcome.err e
      | Except.ok storage =>
          match storage.find? (fun entry => decide (entry.key ∈ keys)) with
          | some entry => liftDecode entry.val
          | none => fallbackResult p

/-- `AccountData` from `src/horizon_helper.rs` (with `Thresholds` and the
`Signer` list flattened to what the code reads): the account's `low_threshold`
and the list of signer weights, both Rust `u8` values modelled as `Nat`
(callers of the theorems may bound them by 256 where it matters). -/
structure AccountData where
  low_threshold : Nat
  signers : List Nat
deriving DecidableEq, Repr

/-- An HTTP collaborator response: transport failure, non-success status,
JSON parse failure, or a decoded payload. -/
inductive HttpResp (α : Type) where
  | transportFail
  | badStatus
  | parseFail
  | ok (a : α)
deriving DecidableEq, Repr

/-- Descending insertion of a weight into an already-descending list (helper
for the embedding of `weights.sort_unstable_by(|a, b| b.cmp(a))`). -/
def insertDesc (w : Nat) : List Nat → List Nat
  | [] => [w]
  | x :: xs => if x < w then w :: x :: xs else x :: insertDesc w xs

/-- Descending sort, embedding `weights.sort_unstable_by(|a, b| b.cmp(a))`
(on `Nat` weights the unstable sort is determined by the resulting order, so
any sort producing the descending order is an exact model). -/
def sortDesc : List Nat → List Nat
  | [] => []
  | w :: ws => insertDesc w (sortDesc ws)

/-- The accumulation loop of `check_if_centralized`: walk the first
`total_signers` sorted weights (passed here as the list prefix), keeping the
running `u8` total (`total_weight += weights[i]` wraps modulo 256 — the
accumulator is a Rust `u8`); at the first index where the wrapped total
reaches `low_threshold`, return `Multisig(i as u8 + 1, total_signers as u8)`;
if the loop exhausts, return `Deactivated`. -/
def multisigLoop (thr ts : Nat) : List Nat → Nat → Nat → AccountType
  | [], _, _ => AccountType.Deactivated
  | w :: rest, i, acc =>
      let acc2 := (acc + w) % 256
      if thr ≤ acc2 then AccountType.Multisig ((i % 256 + 1) % 256) (ts % 256)
      else multisigLoop thr ts rest (i + 1) acc2

/-- The pure classification core of `check_if_centralized` from
`src/horizon_helper.rs`, applied to a decoded `AccountData`:
`max_weight = weights.iter().max().unwrap_or(0)`; `0 → Deactivated`;
`max_weight >= low_threshold → HotWallet`; otherwise count positive signers,
sort descending and run the accumulation loop over the first `total_signers`
weights. -/
def classifyAccount (d : AccountData) : AccountType :=
  let weights := d.signers
  let max_weight := weights.foldr max 0
  if max_weight = 0 then AccountType.Deactivated
  else if d.low_threshold ≤ max_weight then AccountType.HotWallet
  else
    let total_signers := (weights.filter (fun x => 0 < x)).length
    let sorted := sortDesc weights
    multisigLoop d.low_threshold total_signers (sorted.take total_signers) 0 0

/-- `check_if_centralized` from `src/horizon_helper.rs`, as a function of the
HTTP collaborator's response: transport failure or a non-success status →
`HorizonDataFetchFailure`; JSON decode failure → `HorizonDataParseFailure`;
otherwise classify the decoded account data. -/
def check_if_centralized (r : HttpResp AccountData) : Except Error AccountType :=
  match r with
  | HttpResp.transportFail => Except.error Error.HorizonDataFetchFailure
  | HttpResp.badStatus => Except.error Error.HorizonDataFetchFailure
  | HttpResp.parseFail => Except.error Error.HorizonDataParseFailure
  | HttpResp.ok d => Except.ok (classifyAccount d)

/-- `TxRecord` from `src/horizon_helper.rs`; `ledger` is a Rust `u64`
(callers of the theorems bound it by `2 ^ 64` where the subtraction's
faithfulness needs it). -/
structure TxRecord where
  ledger : Nat
  paging_token : String
  source_account : String
  fee_account : String
deriving DecidableEq, Repr

/-- The retain predicate of `get_all_txs_for_account`: the record's source
account or fee account equals the queried account. -/
def qualifies (account : String) (r : TxRecord) : Bool :=
  r.source_account == account || r.fee_account == account

/-- Inner walk of `Vec::dedup_by_key`: `kept` is the last element kept;
consecutive records with the same paging token as `kept` are dropped. -/
def dedupGo (kept : TxRecord) : List TxRecord → List TxRecord
  | [] => []
  | y :: rest =>
      if kept.paging_token == y.paging_token then dedupGo kept rest
      else y :: dedupGo y rest

/-- `results.dedup_by_key(|r| r.paging_token.clone())`: remove all but the
first of consecutive records sharing a paging token. -/
def dedupByToken : List TxRecord → List TxRecord
  | [] => []
  | x :: rest => x :: dedupGo x rest

/-- The post-accumulation pipeline of `get_all_txs_for_account`: retain
records involving the account, then dedup consecutive records by paging
token. -/
def postProcessTxs (account : String) (raw : List TxRecord) : List TxRecord :=
  dedupByToken (raw.filter (qualifies account))

/-- Wrapping `u64` subtraction (`r[1].ledger - r[0].ledger` in release-mode
Rust), defined for operands below `2 ^ 64`. -/
def sub64 (a b : Nat) : Nat := (a + 2 ^ 64 - b) % 2 ^ 64

/-- `txs.windows(2).map(|r| r[1].ledger - r[0].ledger)`: the list of adjacent
ledger differences. -/
def gaps : List TxRecord → List Nat
  | a :: b :: rest => sub64 b.ledger a.ledger :: gaps (b :: rest)
  | _ => []

/-- The `u64::MAX` sentinel returned when fewer than two transactions
qualify. -/
def U64MAX : Nat := 2 ^ 64 - 1

/-- `tx_frequency_for_account` from `src/horizon_helper.rs`, applied to the
accumulated (pre-filter) record list: run the retain/dedup pipeline; with
fewer than two remaining records return `u64::MAX`; otherwise the minimum
adjacent ledger difference (`.min().unwrap()`; the list is provably nonempty
there, so the `getD` default is unreachable). -/
def tx_frequency_core (account : String) (raw : List TxRecord) : Nat :=
  let txs := postProcessTxs account raw
  if txs.length < 2 then U64MAX
  else ((gaps txs).min?).getD 0

/-- One page response of the transaction-history collaborator (the records,
plus the `_links.next.href` cursor, opaque here).  The pagination loop is
driven by the fetch count: each cursor is determined by the previous
response, so the collaborator is modelled as a stream indexed by how many
fetches have happened. -/
def PageStream : Type := Nat → HttpResp (List TxRecord)

/-- Result of one `get_txs_from_cursor` call, with transport/status failures
mapped to `HorizonDataFetchFailure` and JSON failures to
`HorizonDataParseFailure`, exactly as in the source. -/
def fetchPage (pages : PageStream) (i : Nat) : Except Error (List TxRecord) :=
  match pages i with
  | HttpResp.transportFail => Except.error Error.HorizonDataFetchFailure
  | HttpResp.badStatus => Except.error Error.HorizonDataFetchFailure
  | HttpResp.parseFail => Except.error Error.HorizonDataParseFailure
  | HttpResp.ok txs => Except.ok txs

/-- Whether the loop of `get_all_txs_for_account` stops after fetching page
`i`: the fetch fails, or the page's record count differs from a full page
(200). -/
def stopsAt (pages : PageStream) (i : Nat) : Bool :=
  match fetchPage pages i with
  | Except.error _ => true
  | Except.ok txs => decide (txs.length ≠ 200)

/-- The `loop` of `get_all_txs_for_account`, instrumented with fuel: `none`
means the loop has not terminated within `fuel` iterations; `some r` means it
terminated with `r` (the accumulated records before post-processing, or a
propagated error).  Each iteration extends the accumulator and breaks when
the page is not a full 200 records. -/
def fetchLoop (pages : PageStream) :
    Nat → Nat → List TxRecord → Option (Except Error (List TxRecord))
  | 0, _, _ => none
  | fuel + 1, i, acc =>
      match fetchPage pages i with
      | Except.error e => some (Except.error e)
      | Except.ok txs =>
          if txs.length = 200 then fetchLoop pages fuel (i + 1) (acc ++ txs)
          else some (Except.ok (acc ++ txs))

/-- `get_all_txs_for_account` from `src/horizon_helper.rs` with explicit
fuel: run the pagination loop from the first page, then apply the
retain/dedup post-processing. -/
def get_all_txs_for_account (account : String) (pages : PageStream)
    (fuel : Nat) : Option (Except Error (List TxRecord)) :=
  (fetchLoop pages fuel 0 []).map (Except.map (postProcessTxs account))

/-- `Runner::is_hot_wallet` from `src/runner.rs`, as a function of the two
collaborator-derived results: the signer classification
(`check_if_centralized` applied to the account response) and, consulted only
on the tentative `HotWallet` branch, the value of `tx_frequency_for_account`
(its `Result`, since its own page fetches can fail). -/
def is_hot_wallet (acct : HttpResp AccountData) (freq : Except Error Nat) :
    Except Error AccountType :=
  match check_if_centralized acct with
  | Except.error e => Except.error e
  | Except.ok AccountType.HotWallet =>
      match freq with
      | Except.error e => Except.error e
      | Except.ok m =>
          if m ≤ 12 then Except.ok AccountType.HotWallet
          else Except.ok AccountType.MPC
  | Except.ok t => Except.ok t

/-! ### Helper lemmas -/

/-- The fold `weights.iter().max().unwrap_or(0)` is zero exactly when every
weight is zero. -/
theorem foldr_max_eq_zero_iff (l : List Nat) : l.foldr max 0 = 0 ↔ ∀ w ∈ l, w = 0 := by
  induction l with
  | nil => simp
  | cons a l ih => simp [Nat.max_eq_zero_iff, ih]

/-- Every member of a weight list is bounded by the max fold. -/
theorem le_foldr_max (l : List Nat) (w : Nat) (h : w ∈ l) : w ≤ l.foldr max 0 := by
  induction l with
  | nil => cases h
  | cons a l ih =>
      rcases List.mem_cons.1 h with rfl | h2
      · exact le_max_left _ _
      · exact le_trans (ih h2) (le_max_right _ _)

/-! ### Claims C1, C2, C3, C4 -/

/-- Claim C1: in the persistent-storage fallback, a response with zero
matching entries fails with `AdminNotFound`; exactly one entry whose payload
is a contract-data entry succeeds with that entry's value; two or more
entries fail with `MultipleAdminsFound` (no entry is arbitrarily picked). -/
theorem claim_C1 (l : List (Option LedgerEntryData)) :
    (l = [] →
      persistent_storage_lookup (Except.ok (some l)) = PSOutcome.err Error.AdminNotFound) ∧
    (∀ v, l = [some (LedgerEntryData.contractData v)] →
      persistent_storage_lookup (Except.ok (some l)) = PSOutcome.ok v) ∧
    (2 ≤ l.length →
      persistent_storage_lookup (Except.ok (some l)) = PSOutcome.err Error.MultipleAdminsFound) := by
  refine ⟨?_, ?_, ?_⟩
  · rintro rfl; rfl
  · rintro v rfl; rfl
  · intro h
    rcases l with _ | ⟨a, l⟩
    · simp at h
    rcases l with _ | ⟨b, l⟩
    · simp at h
    · rfl

/-- Witness for C1: concrete collaborator responses with zero, one and two
entries produce `AdminNotFound`, the entry's value, and
`MultipleAdminsFound` respectively. -/
theorem claim_C1_witness :
    persistent_storage_lookup (Except.ok (some [])) = PSOutcome.err Error.AdminNotFound ∧
    persistent_storage_lookup
        (Except.ok (some [some (LedgerEntryData.contractData (ScVal.symbol "x"))]))
      = PSOutcome.ok (ScVal.symbol "x") ∧
    persistent_storage_lookup
        (Except.ok (some [some LedgerEntryData.otherEntry, some LedgerEntryData.otherEntry]))
      = PSOutcome.err Error.MultipleAdminsFound :=
  ⟨(claim_C1 []).1 rfl,
   (claim_C1 [some (LedgerEntryData.contractData (ScVal.symbol "x"))]).2.1
     (ScVal.symbol "x") rfl,
   (claim_C1 [some LedgerEntryData.otherEntry, some LedgerEntryData.otherEntry]).2.2
     (by decide)⟩

/-- Claim C2, divergence: with signer weights `[200, 200]` and
`low_threshold = 255` (max weight 200 is positive and strictly below the
threshold), the mathematical running sums are 200 and 400, so the claim
demands `Multisig(2, 2)`; the code's `u8` accumulator `total_weight` wraps
(200 + 200 ≡ 144 mod 256, and a debug build panics on the overflow), never
reaches 255, and the loop exhausts into `Deactivated`. -/
theorem claim_C2_divergence :
    check_if_centralized (HttpResp.ok ⟨255, [200, 200]⟩)
      = Except.ok AccountType.Deactivated := rfl

/-- Claim C3: a tentative `HotWallet` from the signer stage becomes the final
`HotWallet` exactly when the minimum ledger gap is at most 12 and `MPC` when
it exceeds 12 (in particular at the unbounded sentinel `u64::MAX`, returned
when fewer than two qualifying transactions exist); every other
classification passes through unchanged and is independent of the frequency
result. -/
theorem claim_C3 (acct : HttpResp AccountData) (freq : Except Error Nat)
    (t : AccountType) (hc : check_if_centralized acct = Except.ok t) :
    (t = AccountType.HotWallet → ∀ m, freq = Except.ok m →
      (m ≤ 12 → is_hot_wallet acct freq = Except.ok AccountType.HotWallet) ∧
      (12 < m → is_hot_wallet acct freq = Except.ok AccountType.MPC)) ∧
    (t = AccountType.HotWallet → freq = Except.ok U64MAX →
      is_hot_wallet acct freq = Except.ok AccountType.MPC) ∧
    (t ≠ AccountType.HotWallet →
      is_hot_wallet acct freq = Except.ok t ∧
      ∀ freq2, is_hot_wallet acct freq = is_hot_wallet acct freq2) := by
  refine ⟨?_, ?_, ?_⟩
  · rintro rfl m rfl
    constructor
    · intro hm
      simp [is_hot_wallet, hc, hm]
    · intro hm
      simp [is_hot_wallet, hc, Nat.not_le.2 hm]
  · rintro rfl rfl
    have : ¬ U64MAX ≤ 12 := by norm_num [U64MAX]
    simp [is_hot_wallet, hc, this]
  · intro ht
    cases t <;> simp_all [is_hot_wallet, hc]

/-- Witness for C3: the spec's boundary account (weights `[5]`, threshold 5)
is tentatively `HotWallet`; with minimum gap 5 the final result is
`HotWallet`, with gap 200 it is `MPC`, and a `Deactivated` account ignores
the frequency input. -/
theorem claim_C3_witness :
    is_hot_wallet (HttpResp.ok ⟨5, [5]⟩) (Except.ok 5)
      = Except.ok AccountType.HotWallet ∧
    is_hot_wallet (HttpResp.ok ⟨5, [5]⟩) (Except.ok 200)
      = Except.ok AccountType.MPC ∧
    is_hot_wallet (HttpResp.ok ⟨1, [0]⟩) (Except.error Error.HorizonDataFetchFailure)
      = Except.ok AccountType.Deactivated :=
  ⟨((claim_C3 (HttpResp.ok ⟨5, [5]⟩) (Except.ok 5) AccountType.HotWallet rfl).1
      rfl 5 rfl).1 (by norm_num),
   ((claim_C3 (HttpResp.ok ⟨5, [5]⟩) (Except.ok 200) AccountType.HotWallet rfl).1
      rfl 200 rfl).2 (by norm_num),
   ((claim_C3 (HttpResp.ok ⟨1, [0]⟩) (Except.error Error.HorizonDataFetchFailure)
      AccountType.Deactivated rfl).2.2 (by simp)).1⟩

/-- Claim C4: the classifier's max weight is the maximum over all signer
weights (0 for an empty list), so all-zero (or absent) signers give
`Deactivated`, and any positive signer weight that reaches `low_threshold`
under greater-or-equal comparison gives the tentative `HotWallet`. -/
theorem claim_C4 (d : AccountData) :
    ((∀ w ∈ d.signers, w = 0) → classifyAccount d = AccountType.Deactivated) ∧
    (∀ w ∈ d.signers, d.low_threshold ≤ w → w ≠ 0 →
      classifyAccount d = AccountType.HotWallet) := by
  constructor
  · intro h0
    have hM : d.signers.foldr max 0 = 0 := (foldr_max_eq_zero_iff _).2 h0
    simp only [classifyAccount]
    rw [if_pos hM]
  · intro w hw hthr hw0
    have hM : w ≤ d.signers.foldr max 0 := le_foldr_max _ _ hw
    have hM0 : ¬ d.signers.foldr max 0 = 0 := by
      intro h
      exact hw0 ((foldr_max_eq_zero_iff _).1 h w hw)
    simp only [classifyAccount]
    rw [if_neg hM0, if_pos (le_trans hthr hM)]

/-- Witness for C4: weights `[0]` with threshold 1 are `Deactivated`; weights
`[5]` with threshold 5 reach the threshold under `>=` and are tentatively
`HotWallet`; the empty signer list is `Deactivated`. -/
theorem claim_C4_witness :
    classifyAccount ⟨1, [0]⟩ = AccountType.Deactivated ∧
    classifyAccount ⟨5, [5]⟩ = AccountType.HotWallet ∧
    classifyAccount ⟨7, []⟩ = AccountType.Deactivated :=
  ⟨(claim_C4 ⟨1, [0]⟩).1 (by decide),
   (claim_C4 ⟨5, [5]⟩).2 5 (by decide) (by decide) (by decide),
   (claim_C4 ⟨7, []⟩).1 (by decide)⟩

/-! ### Claims C6, C8, C10 -/

/-- Claim C6 counterexample: a persistent-storage response with exactly one
entry whose payload is malformed (the base64 XDR does not decode) makes
`persistent_storage_lookup` hit `from_xdr_base64(..).unwrap()` and panic —
the outcome is `panic`, not a typed error, refuting the claim that a
malformed persistent-storage payload yields a typed error. -/
theorem claim_C6_counterexample :
    persistent_storage_lookup (Except.ok (some [none])) = PSOutcome.panic := rfl

/-- Claim C6 (amended): transport failures yield the corresponding typed
errors (`PersistentStorageFailure`, `InstanceStorageFailure`,
`HorizonDataFetchFailure`), Horizon payload-parse failures yield the distinct
`HorizonDataParseFailure`, and a classification is only ever produced from a
successfully fetched and parsed payload (a fetch failure is never treated as
`Deactivated`); however a malformed persistent-storage payload panics rather
than yielding a typed error. -/
theorem claim_C6_amended :
    (∀ u, persistent_storage_lookup (Except.error u)
        = PSOutcome.err Error.PersistentStorageFailure) ∧
    check_if_centralized HttpResp.transportFail
      = Except.error Error.HorizonDataFetchFailure ∧
    check_if_centralized HttpResp.badStatus
      = Except.error Error.HorizonDataFetchFailure ∧
    check_if_centralized HttpResp.parseFail
      = Except.error Error.HorizonDataParseFailure ∧
    Error.HorizonDataFetchFailure ≠ Error.HorizonDataParseFailure ∧
    (∀ r t, check_if_centralized r = Except.ok t → ∃ d, r = HttpResp.ok d) ∧
    (∀ pages i, pages i = HttpResp.transportFail →
      fetchPage pages i = Except.error Error.HorizonDataFetchFailure) ∧
    (∀ pages i, pages i = HttpResp.parseFail →
      fetchPage pages i = Except.error Error.HorizonDataParseFailure) ∧
    (∀ keys h p u,
      find_key keys (ScAddress.contract h) (Except.error u) p
        = FKOutcome.err Error.InstanceStorageFailure) := by
  refine ⟨fun u => rfl, rfl, rfl, rfl, by decide, ?_, ?_, ?_, fun keys h p u => rfl⟩
  · intro r t hr
    cases r with
    | transportFail => exact absurd hr (by simp [check_if_centralized])
    | badStatus => exact absurd hr (by simp [check_if_centralized])
    | parseFail => exact absurd hr (by simp [check_if_centralized])
    | ok d => exact ⟨d, rfl⟩
  · intro pages i hp
    simp [fetchPage, hp]
  · intro pages i hp
    simp [fetchPage, hp]

/-- Witness for C6: a concrete successful response shows that an `ok`
classification indeed arises only from an `ok` payload. -/
theorem claim_C6_witness :
    ∃ d, (HttpResp.ok (⟨1, [0]⟩ : AccountData)) = HttpResp.ok d :=
  claim_C6_amended.2.2.2.2.2.1 (HttpResp.ok (⟨1, [0]⟩ : AccountData))
    AccountType.Deactivated rfl

/-- Claim C8: the address decoder fails with `WrongStorageType` exactly on
non-address values, returns the account's text identifier as an EOA target
for account addresses, and the contract target for contract addresses (the
embedding is a pure function). -/
theorem claim_C8 (v : ScVal) :
    ((∀ a, v ≠ ScVal.address a) →
      decode_admin_value v = Except.error Error.WrongStorageType) ∧
    (∀ id, v = ScVal.address (ScAddress.account id) →
      decode_admin_value v = Except.ok (AddressType.EOA id)) ∧
    (∀ h, v = ScVal.address (ScAddress.contract h) →
      decode_admin_value v = Except.ok AddressType.Contract) ∧
    (∀ a, v = ScVal.address a →
      decode_admin_value v ≠ Except.error Error.WrongStorageType) := by
  refine ⟨?_, ?_, ?_, ?_⟩
  · intro hna
    cases v with
    | address a => exact absurd rfl (hna a)
    | vecNone => rfl
    | vecSome l => rfl
    | symbol s => rfl
    | str s => rfl
    | boolV b => rfl
    | other n => rfl
  · rintro id rfl; rfl
  · rintro h rfl; rfl
  · rintro a rfl
    cases a <;> simp [decode_admin_value]

/-- Witness for C8: a non-address value, an account address and a contract
address decode as claimed. -/
theorem claim_C8_witness :
    decode_admin_value (ScVal.boolV true) = Except.error Error.WrongStorageType ∧
    decode_admin_value (ScVal.address (ScAddress.account "GACC"))
      = Except.ok (AddressType.EOA "GACC") ∧
    decode_admin_value (ScVal.address (ScAddress.contract "CABC"))
      = Except.ok AddressType.Contract :=
  ⟨(claim_C8 (ScVal.boolV true)).1 (fun a => by simp),
   (claim_C8 (ScVal.address (ScAddress.account "GACC"))).2.1 "GACC" rfl,
   (claim_C8 (ScVal.address (ScAddress.contract "CABC"))).2.2.1 "CABC" rfl⟩

/-- Claim C10: a contract instance with no storage map at all behaves exactly
like one with an empty entry list — the absence is not an error
(`get_contract_instance` returns the empty list), no instance entry matches,
and `find_key` proceeds to the persistent-storage fallback. -/
theorem claim_C10 (keys : Finset ScVal) (h : String) (p : PSResponse) :
    find_key keys (ScAddress.contract h) (Except.ok none) p
      = find_key keys (ScAddress.contract h) (Except.ok (some [])) p ∧
    get_contract_instance (ScAddress.contract h) (Except.ok none) = Except.ok [] ∧
    find_key keys (ScAddress.contract h) (Except.ok none) p = fallbackResult p :=
  ⟨rfl, rfl, rfl⟩

/-! ### Claim C9: pagination loop termination -/

/-- If some page within the remaining fuel stops the loop (fetch failure or a
record count other than 200), the loop terminates. -/
theorem fetchLoop_isSome (pages : PageStream) :
    ∀ fuel i acc, (∃ m, m < fuel ∧ stopsAt pages (i + m) = true) →
      (fetchLoop pages fuel i acc).isSome := by
  intro fuel
  induction fuel with
  | zero => intro i acc ⟨m, hm, _⟩; omega
  | succ fuel ih =>
      intro i acc ⟨m, hm, hstop⟩
      unfold fetchLoop
      cases hfp : fetchPage pages i with
      | error e => rfl
      | ok txs =>
          dsimp only
          by_cases hlen : txs.length = 200
          · rw [if_pos hlen]
            apply ih
            have hm0 : m ≠ 0 := by
              intro h0
              rw [h0, Nat.add_zero] at hstop
              rw [stopsAt, hfp] at hstop
              simp [hlen] at hstop
            refine ⟨m - 1, by omega, ?_⟩
            have : i + 1 + (m - 1) = i + m := by omega
            rw [this]
            exact hstop
          · rw [if_neg hlen]
            rfl

/-- If no page within the fuel budget stops the loop, the loop is still
running when the fuel runs out. -/
theorem fetchLoop_none (pages : PageStream) :
    ∀ fuel i acc, (∀ m, m < fuel → stopsAt pages (i + m) = false) →
      fetchLoop pages fuel i acc = none := by
  intro fuel
  induction fuel with
  | zero => intro i acc _; rfl
  | succ fuel ih =>
      intro i acc hall
      have h0 : stopsAt pages i = false := by
        have := hall 0 (by omega)
        rwa [Nat.add_zero] at this
      unfold fetchLoop
      cases hfp : fetchPage pages i with
      | error e => rw [stopsAt, hfp] at h0; simp at h0
      | ok txs =>
          have hlen : txs.length = 200 := by
            rw [stopsAt, hfp] at h0
            simpa using h0
          dsimp only
          rw [if_pos hlen]
          apply ih
          intro m hm
          have : i + 1 + m = i + (m + 1) := by omega
          rw [this]
          exact hall (m + 1) (by omega)

/-- Claim C9: the transaction-page fetch loop terminates exactly when it
reaches a page whose fetch fails or whose record count differs from the full
page size of 200 — with any fuel budget covering such a page the loop
produces a result, and with no such page within the budget it is still
running. -/
theorem claim_C9 (pages : PageStream) (fuel : Nat) :
    ((∃ m, m < fuel ∧ stopsAt pages m = true) →
      (fetchLoop pages fuel 0 []).isSome) ∧
    ((∀ m, m < fuel → stopsAt pages m = false) →
      fetchLoop pages fuel 0 [] = none) := by
  constructor
  · intro ⟨m, hm, hstop⟩
    exact fetchLoop_isSome pages fuel 0 [] ⟨m, hm, by rwa [Nat.zero_add]⟩
  · intro hall
    exact fetchLoop_none pages fuel 0 [] (fun m hm => by
      rw [Nat.zero_add]; exact hall m hm)

/-- Witness for C9: a collaborator that immediately returns an under-full
page terminates the loop within one iteration, and a collaborator that keeps
returning full pages has not terminated after three. -/
theorem claim_C9_witness :
    ((fetchLoop (fun _ => HttpResp.ok []) 1 0 []).isSome = true) ∧
    (fetchLoop (fun _ => HttpResp.ok (List.replicate 200 ⟨0, "t", "s", "f"⟩)) 3 0 [] = none) :=
  ⟨(claim_C9 (fun _ => HttpResp.ok []) 1).1 ⟨0, by omega, by decide⟩,
   (claim_C9 (fun _ => HttpResp.ok (List.replicate 200 ⟨0, "t", "s", "f"⟩)) 3).2
     (fun m _ => by
       rw [stopsAt]
       have hfp : fetchPage (fun _ => HttpResp.ok (List.replicate 200 ⟨0, "t", "s", "f"⟩)) m
           = Except.ok (List.replicate 200 ⟨0, "t", "s", "f"⟩) := rfl
       rw [hfp]
       dsimp only
       rw [List.length_replicate]
       decide)⟩

/-! ### Claim C5: frequency computation over the accumulated records -/

/-- Records surviving the consecutive dedup walk come from the input list. -/
theorem mem_dedupGo (kept : TxRecord) (l : List TxRecord) :
    ∀ r ∈ dedupGo kept l, r ∈ l := by
  induction l generalizing kept with
  | nil => intro r hr; cases hr
  | cons y rest ih =>
      intro r hr
      rw [dedupGo] at hr
      by_cases htok : kept.paging_token == y.paging_token
      · rw [if_pos htok] at hr
        exact List.mem_cons_of_mem _ (ih kept r hr)
      · rw [if_neg htok] at hr
        rcases List.mem_cons.1 hr with rfl | hr2
        · exact List.mem_cons_self _ _
        · exact List.mem_cons_of_mem _ (ih y r hr2)

/-- Records surviving `dedup_by_key` come from the input list. -/
theorem mem_dedupByToken (l : List TxRecord) :
    ∀ r ∈ dedupByToken l, r ∈ l := by
  cases l with
  | nil => intro r hr; cases hr
  | cons x rest =>
      intro r hr
      rcases List.mem_cons.1 hr with rfl | hr2
      · exact List.mem_cons_self _ _
      · exact List.mem_cons_of_mem _ (mem_dedupGo x rest r hr2)

/-- Records surviving the retain/dedup pipeline come from the accumulated
list. -/
theorem mem_postProcess (account : String) (raw : List TxRecord) :
    ∀ r ∈ postProcessTxs account raw, r ∈ raw := by
  intro r hr
  exact List.mem_of_mem_filter (mem_dedupByToken _ r hr)

/-- `windows(2)` as a zip: the gap list is the adjacent-pair list mapped
through the wrapping subtraction. -/
theorem gaps_eq_zip (l : List TxRecord) :
    gaps l = (l.zip l.tail).map (fun p => sub64 p.2.ledger p.1.ledger) := by
  induction l with
  | nil => rfl
  | cons a l ih =>
      cases l with
      | nil => rfl
      | cons b rest =>
          rw [gaps, ih]
          rfl

/-- Characterisation of `Iterator::min` on a `Nat` list: the result is a
member and a lower bound. -/
theorem nat_min?_spec (l : List Nat) (m : Nat) (h : l.min? = some m) :
    m ∈ l ∧ ∀ x ∈ l, m ≤ x := by
  haveI : Std.Antisymm (fun a b : Nat => a ≤ b) := ⟨fun h1 h2 => Nat.le_antisymm h1 h2⟩
  exact (List.min?_eq_some_iff (fun a => Nat.le_refl a) (fun a b => min_choice a b)
    (fun a b c => le_min_iff)).1 h

/-- Claim C5: on any accumulated record list, `tx_frequency_core` filters to
records involving the account, dedups consecutive records by paging token,
returns the `u64::MAX` sentinel when fewer than two records remain, and
otherwise (for in-range, ledger-ascending survivors) returns exactly the
minimum of the adjacent ledger differences. -/
theorem claim_C5 (account : String) (raw : List TxRecord) :
    ((postProcessTxs account raw).length < 2 →
      tx_frequency_core account raw = U64MAX) ∧
    (2 ≤ (postProcessTxs account raw).length →
      (∀ r ∈ raw, r.ledger < 2 ^ 64) →
      (∀ p ∈ (postProcessTxs account raw).zip (postProcessTxs account raw).tail,
        p.1.ledger ≤ p.2.ledger) →
      (∀ p ∈ (postProcessTxs account raw).zip (postProcessTxs account raw).tail,
        tx_frequency_core account raw ≤ p.2.ledger - p.1.ledger) ∧
      (∃ p ∈ (postProcessTxs account raw).zip (postProcessTxs account raw).tail,
        tx_frequency_core account raw = p.2.ledger - p.1.ledger)) := by
  constructor
  · intro h
    simp only [tx_frequency_core]
    rw [if_pos h]
  · intro hlen hbound hchain
    have hsub : ∀ p ∈ (postProcessTxs account raw).zip (postProcessTxs account raw).tail,
        sub64 p.2.ledger p.1.ledger = p.2.ledger - p.1.ledger := by
      rintro ⟨x, y⟩ hp
      have hmem := List.of_mem_zip hp
      have hy : y ∈ postProcessTxs account raw := List.mem_of_mem_tail hmem.2
      have hle : x.ledger ≤ y.ledger := hchain ⟨x, y⟩ hp
      have hlt : y.ledger < 2 ^ 64 := hbound _ (mem_postProcess account raw y hy)
      simp only [sub64]
      omega
    have hgaps : gaps (postProcessTxs account raw)
        = ((postProcessTxs account raw).zip (postProcessTxs account raw).tail).map
            (fun p => p.2.ledger - p.1.ledger) := by
      rw [gaps_eq_zip]
      exact List.map_congr_left hsub
    have hresult : tx_frequency_core account raw
        = ((gaps (postProcessTxs account raw)).min?).getD 0 := by
      simp only [tx_frequency_core]
      rw [if_neg (by omega)]
    obtain ⟨a, b, rest, hq2⟩ :
        ∃ a b rest, postProcessTxs account raw = a :: b :: rest := by
      rcases hq : postProcessTxs account raw with _ | ⟨a, _ | ⟨b, rest⟩⟩
      · rw [hq] at hlen; simp at hlen
      · rw [hq] at hlen; simp at hlen
      · exact ⟨a, b, rest, rfl⟩
    obtain ⟨m, hm⟩ : ∃ m, (gaps (postProcessTxs account raw)).min? = some m := by
      rw [hq2]
      exact ⟨_, rfl⟩
    have hspec := nat_min?_spec _ _ hm
    rw [hresult, hm]
    simp only [Option.getD]
    constructor
    · intro p hp
      apply hspec.2
      rw [hgaps]
      exact List.mem_map_of_mem _ hp
    · have hmem := hspec.1
      rw [hgaps] at hmem
      obtain ⟨p, hp, hpe⟩ := List.mem_map.1 hmem
      exact ⟨p, hp, hpe.symm⟩

/-- Witness for C5: the spec's ledger sequence `[100, 105, 260]` (all
involving the queried account, distinct paging tokens) keeps three records,
and the minimum gap is bounded by the first adjacent difference 5. -/
theorem claim_C5_witness :
    2 ≤ (postProcessTxs "A"
      [⟨100, "1", "A", "B"⟩, ⟨105, "2", "A", "B"⟩, ⟨260, "3", "A", "B"⟩]).length ∧
    tx_frequency_core "A"
      [⟨100, "1", "A", "B"⟩, ⟨105, "2", "A", "B"⟩, ⟨260, "3", "A", "B"⟩] ≤ 5 :=
  ⟨by decide,
   ((claim_C5 "A"
      [⟨100, "1", "A", "B"⟩, ⟨105, "2", "A", "B"⟩, ⟨260, "3", "A", "B"⟩]).2
      (by decide) (by decide) (by decide)).1
      (⟨100, "1", "A", "B"⟩, ⟨105, "2", "A", "B"⟩) (by decide)⟩

/-! ### Claim C7: the key-variant set -/

/-- An alphabetic character's code point lies in the basic-latin letter
ranges. -/
theorem isAlpha_toNat {c : Char} (h : c.isAlpha = true) :
    (65 ≤ c.toNat ∧ c.toNat ≤ 90) ∨ (97 ≤ c.toNat ∧ c.toNat ≤ 122) := by
  simp [Char.isAlpha, Char.isUpper, Char.isLower] at h
  rcases h with ⟨h1, h2⟩ | ⟨h1, h2⟩
  · exact Or.inl ⟨UInt32.le_toNat_of_le (by decide) h1, UInt32.toNat_le_of_le (by decide) h2⟩
  · exact Or.inr ⟨UInt32.le_toNat_of_le (by decide) h1, UInt32.toNat_le_of_le (by decide) h2⟩

/-- A character below code point 128 occupies one UTF-8 byte. -/
theorem utf8Size_eq_one {c : Char} (h : c.toNat < 128) : c.utf8Size = 1 := by
  have h2 : c.val.toBitVec.toNat < 128 := h
  simp only [Char.utf8Size]
  split
  · rfl
  · rename_i hneg
    exact absurd (by simp [UInt32.le_def, BitVec.le_def]; omega) hneg

/-- `Char.ofNat` on a scalar value below the surrogate range keeps the code
point. -/
theorem toNat_ofNat_valid (n : Nat) (h : n < 55296) : (Char.ofNat n).toNat = n := by
  unfold Char.ofNat
  rw [dif_pos (Or.inl h)]
  rfl

/-- Code point of the ASCII lowercase transform. -/
theorem toNat_toLower (c : Char) :
    (c.toLower).toNat = if 65 ≤ c.toNat ∧ c.toNat ≤ 90 then c.toNat + 32 else c.toNat := by
  simp only [Char.toLower]
  split
  · rename_i hcond
    rw [toNat_ofNat_valid _ (by omega)]
  · rfl

/-- Code point of the ASCII uppercase transform. -/
theorem toNat_toUpper (c : Char) :
    (c.toUpper).toNat = if 97 ≤ c.toNat ∧ c.toNat ≤ 122 then c.toNat - 32 else c.toNat := by
  simp only [Char.toUpper]
  split
  · rename_i hcond
    rw [toNat_ofNat_valid _ (by omega)]
  · rfl

/-- Lowercasing an alphabetic character keeps it at one UTF-8 byte. -/
theorem utf8Size_toLower_of_alpha {c : Char} (h : c.isAlpha = true) :
    (c.toLower).utf8Size = 1 := by
  apply utf8Size_eq_one
  rw [toNat_toLower]
  have := isAlpha_toNat h
  split <;> omega

/-- Uppercasing an alphabetic character keeps it at one UTF-8 byte. -/
theorem utf8Size_toUpper_of_alpha {c : Char} (h : c.isAlpha = true) :
    (c.toUpper).utf8Size = 1 := by
  apply utf8Size_eq_one
  rw [toNat_toUpper]
  have := isAlpha_toNat h
  split <;> omega

/-- Byte length of an all-alphabetic character list. -/
theorem sumSize_of_alpha (l : List Char) (h : ∀ c ∈ l, c.isAlpha = true) :
    (l.map Char.utf8Size).sum = l.length := by
  induction l with
  | nil => rfl
  | cons c l ih =>
      have hc : c.utf8Size = 1 := by
        have := isAlpha_toNat (h c (List.mem_cons_self _ _))
        exact utf8Size_eq_one (by omega)
      simp only [List.map_cons, List.sum_cons, List.length_cons, hc,
        ih (fun x hx => h x (List.mem_cons_of_mem _ hx))]
      omega

/-- Byte length of the lowercased form of an all-alphabetic list. -/
theorem sumSize_map_toLower (l : List Char) (h : ∀ c ∈ l, c.isAlpha = true) :
    ((l.map Char.toLower).map Char.utf8Size).sum = l.length := by
  induction l with
  | nil => rfl
  | cons c l ih =>
      simp only [List.map_cons, List.sum_cons, List.length_cons,
        utf8Size_toLower_of_alpha (h c (List.mem_cons_self _ _)),
        ih (fun x hx => h x (List.mem_cons_of_mem _ hx))]
      omega

/-- Byte length of the uppercased form of an all-alphabetic list. -/
theorem sumSize_map_toUpper (l : List Char) (h : ∀ c ∈ l, c.isAlpha = true) :
    ((l.map Char.toUpper).map Char.utf8Size).sum = l.length := by
  induction l with
  | nil => rfl
  | cons c l ih =>
      simp only [List.map_cons, List.sum_cons, List.length_cons,
        utf8Size_toUpper_of_alpha (h c (List.mem_cons_self _ _)),
        ih (fun x hx => h x (List.mem_cons_of_mem _ hx))]
      omega

/-- The three encoded shapes of one key string, as inserted by
`possible_keys` for a single case variant. -/
def encShapes (s : String) : Finset ScVal :=
  {ScVal.vecSome (ScValList.cons (ScVal.symbol s) ScValList.nil),
   ScVal.str s, ScVal.symbol s}

/-- `format_key` on the enum-variant shape succeeds below the symbol
limit. -/
theorem format_key_ev {x : String} (hx : byteLen x ≤ symbolLimit) :
    format_key x KeyType.EnumVariant
      = some (ScVal.vecSome (ScValList.cons (ScVal.symbol x) ScValList.nil)) := by
  simp [format_key, hx]

/-- `format_key` on the symbol shape succeeds below the symbol limit. -/
theorem format_key_sym {x : String} (hx : byteLen x ≤ symbolLimit) :
    format_key x KeyType.Symbol = some (ScVal.symbol x) := by
  simp [format_key, hx]

/-- `format_key` on the string shape succeeds below the (huge) string
limit. -/
theorem format_key_str {x : String} (hx : byteLen x ≤ stringLimit) :
    format_key x KeyType.String = some (ScVal.str x) := by
  simp [format_key, hx]

/-- The variant set of three encodable case variants is the union of their
shape triples. -/
theorem possible_keys_three (x y z : String)
    (hx : byteLen x ≤ symbolLimit) (hy : byteLen y ≤ symbolLimit)
    (hz : byteLen z ≤ symbolLimit) :
    possible_keys [x, y, z] = some (encShapes x ∪ encShapes y ∪ encShapes z) := by
  have hx2 : byteLen x ≤ stringLimit :=
    le_trans hx (by norm_num [symbolLimit, stringLimit])
  have hy2 : byteLen y ≤ stringLimit :=
    le_trans hy (by norm_num [symbolLimit, stringLimit])
  have hz2 : byteLen z ≤ stringLimit :=
    le_trans hz (by norm_num [symbolLimit, stringLimit])
  have step : ∀ (acc : Finset ScVal) (k : String) (rest : List String),
      byteLen k ≤ symbolLimit → byteLen k ≤ stringLimit →
      possible_keys_aux acc (k :: rest)
        = possible_keys_aux
            (insert (ScVal.symbol k) (insert (ScVal.str k)
              (insert (ScVal.vecSome (ScValList.cons (ScVal.symbol k) ScValList.nil)) acc)))
            rest := by
    intro acc k rest h1 h2
    rw [possible_keys_aux, format_key_ev h1, format_key_str h2, format_key_sym h1]
    rfl
  rw [possible_keys, step ∅ x [y, z] hx hx2, step _ y [z] hy hy2, step _ z [] hz hz2,
    possible_keys_aux]
  refine congrArg some (Finset.ext fun a => ?_)
  simp only [encShapes, Finset.mem_insert, Finset.mem_union, Finset.mem_singleton,
    Finset.not_mem_empty, or_false]
  tauto

/-- Each shape triple has exactly three elements (the three wire shapes are
distinct constructors). -/
theorem encShapes_card (s : String) : (encShapes s).card = 3 := by
  rw [encShapes, Finset.card_insert_of_not_mem (by simp),
    Finset.card_insert_of_not_mem (by simp), Finset.card_singleton]

/-- Shape triples of distinct strings are disjoint (each shape constructor is
injective in the key string). -/
theorem encShapes_disjoint {s t : String} (h : s ≠ t) :
    Disjoint (encShapes s) (encShapes t) := by
  rw [Finset.disjoint_left]
  intro a ha hb
  simp only [encShapes, Finset.mem_insert, Finset.mem_singleton] at ha hb
  rcases ha with rfl | rfl | rfl <;> rcases hb with hb | hb | hb <;> simp_all

/-- Cardinality of a three-variant union: strictly below 9 exactly when two
of the three strings coincide. -/
theorem card_three_union (x y z : String) :
    (encShapes x ∪ encShapes y ∪ encShapes z).card < 9 ↔ (x = y ∨ x = z ∨ y = z) := by
  by_cases h1 : x = y
  · subst h1
    refine ⟨fun _ => Or.inl rfl, fun _ => ?_⟩
    rw [Finset.union_self]
    calc (encShapes x ∪ encShapes z).card
        ≤ (encShapes x).card + (encShapes z).card := Finset.card_union_le _ _
      _ < 9 := by rw [encShapes_card, encShapes_card]; omega
  · by_cases h2 : x = z
    · subst h2
      refine ⟨fun _ => Or.inr (Or.inl rfl), fun _ => ?_⟩
      rw [Finset.union_eq_left.mpr
        (le_trans Finset.subset_union_left (le_of_eq rfl))]
      calc (encShapes x ∪ encShapes y).card
          ≤ (encShapes x).card + (encShapes y).card := Finset.card_union_le _ _
        _ < 9 := by rw [encShapes_card, encShapes_card]; omega
    · by_cases h3 : y = z
      · subst h3
        refine ⟨fun _ => Or.inr (Or.inr rfl), fun _ => ?_⟩
        rw [Finset.union_assoc, Finset.union_self]
        calc (encShapes x ∪ encShapes y).card
            ≤ (encShapes x).card + (encShapes y).card := Finset.card_union_le _ _
          _ < 9 := by rw [encShapes_card, encShapes_card]; omega
      · have hcard : (encShapes x ∪ encShapes y ∪ encShapes z).card = 9 := by
          rw [Finset.card_union_of_disjoint
              (Finset.disjoint_union_left.mpr
                ⟨encShapes_disjoint h2, encShapes_disjoint h3⟩),
            Finset.card_union_of_disjoint (encShapes_disjoint h1),
            encShapes_card, encShapes_card, encShapes_card]
        rw [hcard]
        simp [h1, h2, h3]

/-- Claim C7 counterexample: a 33-character alphabetic key exceeds the
32-byte `ScSymbol` bound, so `StringM::from_str(key).unwrap()` panics inside
the generator and no variant set is produced at all. -/
theorem claim_C7_counterexample :
    possible_keys (mutate_input "aaaaaaaaaaaaaaaaaaaaaaaaaaaaaaaaa") = none := by decide

/-- Claim C7 (amended to keys of at most 32 characters, below the `ScSymbol`
byte bound): the key-variant generator yields a set of at most 9 distinct
encoded values, with fewer than 9 exactly when at least two of the three case
transforms coincide. -/
theorem claim_C7_amended (key : String) (hne : key ≠ "")
    (halpha : ∀ c ∈ key.data, c.isAlpha = true)
    (hlen : key.data.length ≤ 32) :
    ∃ s, possible_keys (mutate_input key) = some s ∧ s.card ≤ 9 ∧
      (s.card < 9 ↔ (toLowerStr key = toUpperStr key ∨
        toLowerStr key = capitalizeStr key ∨ toUpperStr key = capitalizeStr key)) := by
  have hl : byteLen (toLowerStr key) ≤ symbolLimit := by
    show (((key.data.map Char.toLower)).map Char.utf8Size).sum ≤ symbolLimit
    rw [sumSize_map_toLower key.data halpha]
    exact le_trans hlen (by norm_num [symbolLimit])
  have hu : byteLen (toUpperStr key) ≤ symbolLimit := by
    show (((key.data.map Char.toUpper)).map Char.utf8Size).sum ≤ symbolLimit
    rw [sumSize_map_toUpper key.data halpha]
    exact le_trans hlen (by norm_num [symbolLimit])
  have hc : byteLen (capitalizeStr key) ≤ symbolLimit := by
    rcases hd : key.data with _ | ⟨c0, rest⟩
    · simp [byteLen, capitalizeStr, hd, symbolLimit]
    · have h0 : c0.isAlpha = true := halpha c0 (by rw [hd]; exact List.mem_cons_self _ _)
      have hrest : ∀ c ∈ rest, c.isAlpha = true :=
        fun c hx => halpha c (by rw [hd]; exact List.mem_cons_of_mem _ hx)
      show byteLen (capitalizeStr key) ≤ symbolLimit
      rw [capitalizeStr, hd]
      show ((Char.toUpper c0 :: rest.map Char.toLower).map Char.utf8Size).sum ≤ symbolLimit
      rw [List.map_cons, List.sum_cons, utf8Size_toUpper_of_alpha h0,
        sumSize_map_toLower rest hrest]
      have hkey : key.data.length = rest.length + 1 := by rw [hd]; simp
      have hsym : symbolLimit = 32 := rfl
      omega
  refine ⟨encShapes (toLowerStr key) ∪ encShapes (toUpperStr key)
    ∪ encShapes (capitalizeStr key), ?_, ?_, ?_⟩
  · rw [mutate_input]
    exact possible_keys_three _ _ _ hl hu hc
  · calc (encShapes (toLowerStr key) ∪ encShapes (toUpperStr key)
        ∪ encShapes (capitalizeStr key)).card
        ≤ (encShapes (toLowerStr key) ∪ encShapes (toUpperStr key)).card
          + (encShapes (capitalizeStr key)).card := Finset.card_union_le _ _
      _ ≤ ((encShapes (toLowerStr key)).card + (encShapes (toUpperStr key)).card)
          + (encShapes (capitalizeStr key)).card :=
            Nat.add_le_add_right (Finset.card_union_le _ _) _
      _ = 9 := by rw [encShapes_card, encShapes_card, encShapes_card]
  · exact card_three_union _ _ _

/-- Witness for C7: the key `"Admin"` produces a full set of nine variants,
and its three case transforms are pairwise distinct. -/
theorem claim_C7_witness :
    ∃ s, possible_keys (mutate_input "Admin") = some s ∧ s.card ≤ 9 ∧
      (s.card < 9 ↔ (toLowerStr "Admin" = toUpperStr "Admin" ∨
        toLowerStr "Admin" = capitalizeStr "Admin" ∨
        toUpperStr "Admin" = capitalizeStr "Admin")) :=
  claim_C7_amended "Admin" (by decide) (by decide) (by decide)

end StellarAdmin
